import Mathlib

/-!
Verification development for the wmt matrix tool (src/wmt.py).

The file shallowly embeds the parts of the program the claims speak
about: the leaderboard ranking loop of main, the BeautifulSoup-style
table extraction of process_to_csv, the CSV round trip through the
csv module and text-mode file translation, and the cache-first
download logic of download_matrix_page together with the static
dataset catalog.  Definitions come first, theorems afterwards.
-/

set_option linter.unusedVariables false
set_option linter.unreachableTactic false
set_option linter.unusedTactic false

/- ===================== DEFINITIONS ===================== -/

/-! ## Python string comparison

Python compares strings with the lexicographic order on Unicode code
points: the first differing character decides, and a proper prefix is
smaller.  The ranking loop of main sorts on this order, never on a
parsed number. -/

/-- Python string comparison a < b on the underlying character lists:
lexicographic by code point, a proper prefix is smaller. -/
def pyStrLt : List Char → List Char → Bool
  | [], [] => false
  | [], _ :: _ => true
  | _ :: _, [] => false
  | a :: as, b :: bs => if a < b then true else if b < a then false else pyStrLt as bs

/-- Python string comparison on Lean strings. -/
def pyLt (a b : String) : Bool := pyStrLt a.toList b.toList

/-! ## The ranking loop of main (wmt.py lines 244-256)

The loop reads four keys of every CSV row: System, BLEU-cased,
Constraint and System Notes.  A row of the systems table is embedded
as a structure with those four string fields. -/

/-- A row of the systems table as consumed by the ranking loop in
main, which reads the columns System, BLEU-cased, Constraint and
System Notes of each CSV record. -/
structure SysRow where
  system : String
  bleu_cased : String
  constraint : String
  system_notes : String
  deriving DecidableEq, Repr

/-- Stable insertion of a row into a list that is already sorted by
BLEU-cased in descending Python string order: the row moves past
strictly larger scores and stops in front of the first row whose score
is not larger, so rows with equal scores keep their original relative
order. -/
def insertDesc (r : SysRow) : List SysRow → List SysRow
  | [] => [r]
  | x :: xs =>
    if pyLt r.bleu_cased x.bleu_cased then x :: insertDesc r xs else r :: x :: xs

/-- The sort in main, line 247: sorted(d, key=BLEU-cased, reverse=True)
is the stable descending sort on the score string; it is embedded as a
stable insertion sort, which computes the same list as any stable
descending sort. -/
def pySortDesc : List SysRow → List SysRow
  | [] => []
  | x :: xs => insertDesc x (pySortDesc xs)

/-- The filters of the ranking loop (wmt.py lines 248-250): a row is
dropped when its BLEU-cased value is the sentinel string failed, and
when the constrained flag is set a row is kept only when its
Constraint value is yes. -/
def survives (constrained : Bool) (r : SysRow) : Bool :=
  !decide (r.bleu_cased = "failed") && (!constrained || decide (r.constraint = "yes"))

/-- The printing loop of main (wmt.py lines 246-253) after the sort:
the counter i starts at 0, failed rows are skipped, rows failing the
constrained test are skipped without touching the counter, and a
surviving row is emitted when top_k equals 0 or the incremented
counter is at most top_k. -/
def rankLoop (constrained : Bool) (top_k : Int) : Int → List SysRow → List SysRow
  | _, [] => []
  | i, row :: rest =>
    if row.bleu_cased = "failed" then rankLoop constrained top_k i rest
    else if !constrained || decide (row.constraint = "yes") then
      if top_k = 0 ∨ i + 1 ≤ top_k then row :: rankLoop constrained top_k (i + 1) rest
      else rankLoop constrained top_k (i + 1) rest
    else rankLoop constrained top_k i rest

/-- The leaderboard ranking of main: sort all records by BLEU-cased in
descending string order with a stable sort, then run the filtering and
truncating loop with the counter starting at 0. -/
def rank (d : List SysRow) (constrained : Bool) (top_k : Int) : List SysRow :=
  rankLoop constrained top_k 0 (pySortDesc d)

/-- Descending order on the score field, as a relation for sortedness
statements: x comes no later than y when the score of x is not below
the score of y in Python string order. -/
def scoreGe (x y : SysRow) : Prop := pyLt x.bleu_cased y.bleu_cased = false

/-- Concrete row with score 9.9 for the string-order example. -/
def rowA : SysRow := ⟨"A", "9.9", "yes", ""⟩

/-- Concrete row with score 10.1 for the string-order example. -/
def rowB : SysRow := ⟨"B", "10.1", "yes", ""⟩

/-- Concrete row with score 2.0 for the string-order example. -/
def rowC : SysRow := ⟨"C", "2.0", "yes", ""⟩

/-- Concrete row whose score is the sentinel string failed. -/
def rowF : SysRow := ⟨"F", "failed", "yes", ""⟩

/-! ## HTML tree model for the table extraction of process_to_csv

BeautifulSoup parses the page into a tree of elements and navigable
strings; process_to_csv only uses find, find_all and find(text=True)
on that tree, so the tree itself is the embedding boundary.  The node
type is given as a pair of mutually inductive types so that every
traversal is structurally recursive and computable. -/

mutual
/-- A parsed HTML node in the style of the BeautifulSoup tree that
process_to_csv walks: an element with a tag name and ordered children,
or a navigable string (text node). -/
inductive Node where
  | elem (name : String) (children : NodeList)
  | str (s : String)
/-- A list of sibling HTML nodes. -/
inductive NodeList where
  | nil
  | cons (hd : Node) (tl : NodeList)
end

mutual
/-- All nodes strictly below a node in document (pre-)order: the
descendants that BeautifulSoup find and find_all search. -/
def descendants : Node → List Node
  | .elem _ cs => descendantsList cs
  | .str _ => []
/-- Descendants traversal of a sibling list: each node followed by its
own descendants, left to right. -/
def descendantsList : NodeList → List Node
  | .nil => []
  | .cons c cs => c :: descendants c ++ descendantsList cs
end

/-- Tag test: whether the node is an element with the given name. -/
def isTag (nm : String) : Node → Bool
  | .elem n _ => decide (n = nm)
  | .str _ => false

/-- BeautifulSoup find_all(name): every descendant element with the
given tag name, in document order. -/
def findAll (nm : String) (n : Node) : List Node :=
  (descendants n).filter (isTag nm)

/-- BeautifulSoup find(name): the first descendant element with the
given tag name, or none. -/
def findTag (nm : String) (n : Node) : Option Node :=
  (findAll nm n).head?

/-- Text payload of a navigable string node. -/
def nodeText : Node → Option String
  | .str s => some s
  | .elem _ _ => none

/-- BeautifulSoup find(text=True): the first navigable string among
the descendants in document order, whitespace-only strings included,
or none when the subtree holds no string at all. -/
def findFirstText (n : Node) : Option String :=
  ((descendants n).filterMap nodeText).head?

/-- Whitespace in the sense of the Python str.rstrip and str.strip
methods, restricted to the ASCII whitespace characters. -/
def pyIsSpace (c : Char) : Bool :=
  decide (c = ' ') || decide (c = '\t') || decide (c = '\n') || decide (c = '\r') ||
    decide (c = Char.ofNat 11) || decide (c = Char.ofNat 12)

/-- Python str.rstrip(): remove trailing whitespace. -/
def pyRstrip (s : String) : String :=
  ⟨(s.toList.reverse.dropWhile pyIsSpace).reverse⟩

/-- Python str.strip(): remove leading and trailing whitespace. -/
def pyStrip (s : String) : String :=
  ⟨((s.toList.dropWhile pyIsSpace).reverse.dropWhile pyIsSpace).reverse⟩

/-- The per-cell rule leaf of process_to_csv (wmt.py lines 146-152):
when the cell has exactly one descendant p element, the value is the
first string below that p; otherwise the value is the first string
below the cell itself.  The result is rstripped and a missing string
gives the empty string. -/
def leaf (node : Node) : String :=
  let text :=
    if (findAll "p" node).length = 1 then
      (findTag "p" node).bind findFirstText
    else findFirstText node
  match text with
  | some t => pyRstrip t
  | none => ""

/-- Values of one data row: leaf of every td cell, left to right
(wmt.py line 155). -/
def rowValues (r : Node) : List String :=
  (findAll "td" r).map leaf

/-- Header list of the table (wmt.py line 141): the first string below
every th cell of the first tr row, in order and with no trimming; a th
cell with no string below it yields none. -/
def headerTexts (r0 : Node) : List (Option String) :=
  (findAll "th" r0).map findFirstText

/-- The table extraction of process_to_csv (wmt.py lines 134-157)
without the file system: locate the first table of the document,
collect its tr rows, read the headers from the first row, convert
every later row to its cell values and keep exactly the rows whose
value count equals the header count, in encountered order.  The none
results model the AttributeError on a page with no table and the
IndexError on a table with no rows. -/
def extract (doc : Node) : Option (List (Option String) × List (List String)) :=
  match findTag "table" doc with
  | none => none
  | some table =>
    match findAll "tr" table with
    | [] => none
    | r0 :: rest =>
      let headers := headerTexts r0
      some (headers,
        (rest.map rowValues).filter (fun v => decide (v.length = headers.length)))

/-- Direct text of a cell as claim C5 words it: the first string that
is an immediate child of the node, nested sub-elements not searched. -/
def directFirstTextList : NodeList → Option String
  | .nil => none
  | .cons (.str s) _ => some s
  | .cons (.elem _ _) cs => directFirstTextList cs

/-- Direct text of a node, claim C5 reading: only immediate children. -/
def directFirstText : Node → Option String
  | .elem _ cs => directFirstTextList cs
  | .str _ => none

/-- The per-cell rule exactly as claim C5 states it: with exactly one
paragraph sub-element the value is that sub-element text, otherwise
the value is the cell own direct text; trailing whitespace is trimmed
and no text means the empty string. -/
def leafClaim (node : Node) : String :=
  let text :=
    if (findAll "p" node).length = 1 then
      (findTag "p" node).bind findFirstText
    else directFirstText node
  match text with
  | some t => pyRstrip t
  | none => ""

mutual
/-- All strings strictly below a node in document order, computed by a
direct structural recursion, independent of the descendants list. -/
def textsBelow : Node → List String
  | .elem _ cs => textsBelowList cs
  | .str _ => []
/-- Strings below a sibling list, document order. -/
def textsBelowList : NodeList → List String
  | .nil => []
  | .cons (.str s) cs => s :: textsBelowList cs
  | .cons (.elem _ gs) cs => textsBelowList gs ++ textsBelowList cs
end

mutual
/-- All p elements strictly below a node, computed by a direct
structural recursion. -/
def pElems : Node → List Node
  | .elem _ cs => pElemsList cs
  | .str _ => []
/-- The p elements at or below a sibling list, document order. -/
def pElemsList : NodeList → List Node
  | .nil => []
  | .cons c cs => (if isTag "p" c then [c] else []) ++ pElems c ++ pElemsList cs
end

/-- The per-cell rule of claim C5 as amended: with exactly one p
element anywhere below the cell the value is the first string below
that p, otherwise the first string anywhere below the cell itself
(document order, nested sub-elements included); trailing whitespace is
trimmed and a missing string gives the empty string. -/
def leafAmended (node : Node) : String :=
  let text :=
    if (pElems node).length = 1 then
      (pElems node).head?.bind fun p => (textsBelow p).head?
    else (textsBelow node).head?
  match text with
  | some t => pyRstrip t
  | none => ""

/-- Concrete cell whose only text sits inside a nested sub-element. -/
def nestedCell : Node :=
  .elem "td" (.cons (.elem "a" (.cons (.str "x") .nil)) .nil)

/-- Concrete header row whose th cell text has surrounding spaces. -/
def trHead6 : Node :=
  .elem "tr" (.cons (.elem "th" (.cons (.str " System ") .nil)) .nil)

/-- Concrete data row with one td cell with text x. -/
def trRow6 : Node :=
  .elem "tr" (.cons (.elem "td" (.cons (.str "x") .nil)) .nil)

/-- Concrete table holding the header row and the data row. -/
def tableC6 : Node :=
  .elem "table" (.cons trHead6 (.cons trRow6 .nil))

/-- Concrete document holding the table. -/
def docC6 : Node :=
  .elem "html" (.cons tableC6 .nil)

/-- Concrete malformed data row with two td cells under a one-column
header, used for the row-mismatch claim. -/
def trRow7 : Node :=
  .elem "tr" (.cons (.elem "td" (.cons (.str "a") .nil))
    (.cons (.elem "td" (.cons (.str "b") .nil)) .nil))

/-- Concrete table with a one-column header, one well-shaped row and
one row with a surplus cell. -/
def tableC7 : Node :=
  .elem "table" (.cons trHead6 (.cons trRow6 (.cons trRow7 .nil)))

/-- Concrete document holding the mismatch table. -/
def docC7 : Node :=
  .elem "html" (.cons tableC7 .nil)

/-! ## CSV round trip

process_to_csv writes the extracted records with csv.DictWriter over a
text file opened for writing (lines 142-157), and download_matrix_page
reads them back with csv.DictReader over a file opened with the
default universal-newline decoding (line 197).  The excel dialect of
the csv module is embedded character by character: delimiter comma,
quote character double quote, doubled quotes, minimal quoting, line
terminator CR LF.  On a posix system the text layer is the identity on
write, and turns CR LF and lone CR into LF on read.  A field is a cell
value as a character list. -/

/-- A CSV field: one cell value as a list of characters. -/
abbrev Cell := List Char

/-- Minimal quoting test of the csv writer: a field is quoted exactly
when it holds the delimiter, the quote character, or a character of
the CR LF line terminator. -/
def csvNeedsQuote (f : Cell) : Bool :=
  f.any fun c =>
    decide (c = ',') || decide (c = '"') || decide (c = '\r') || decide (c = '\n')

/-- Body of a quoted field: every embedded quote character doubled. -/
def csvEscape (f : Cell) : Cell :=
  f.flatMap fun c => if c = '"' then ['"', '"'] else [c]

/-- A quoted field: quote, escaped body, quote. -/
def csvQuote (f : Cell) : Cell :=
  '"' :: csvEscape f ++ ['"']

/-- Encoded field: quoted when minimal quoting requires it, verbatim
otherwise. -/
def csvEncodeField (f : Cell) : Cell :=
  if csvNeedsQuote f then csvQuote f else f

/-- Encoded fields of a record joined with the comma delimiter, as the
writer emits them left to right. -/
def csvJoinFields : List Cell → List Char
  | [] => []
  | [f] => csvEncodeField f
  | f :: fs => csvEncodeField f ++ ',' :: csvJoinFields fs

/-- Body of one written row: the joined fields, except that a record
whose joined text is empty while holding at least one field is written
as a single quoted empty field, so that a record holding exactly one
empty cell stays distinguishable from a blank line (the special case
of csv_writerow in the C implementation of the csv module). -/
def csvRowBody (fs : List Cell) : List Char :=
  if fs ≠ [] ∧ csvJoinFields fs = [] then ['"', '"'] else csvJoinFields fs

/-- One written row: its body followed by the CR LF terminator. -/
def csvWriteRow (fs : List Cell) : List Char :=
  csvRowBody fs ++ ['\r', '\n']

/-- The DictWriter output for a header list and the aligned value rows
of the records: writeheader, then one row per record.  On posix the
text layer adds nothing, so the cache file holds exactly these
characters. -/
def csvDictWrite (headers : List Cell) (rows : List (List Cell)) : List Char :=
  csvWriteRow headers ++ (rows.map csvWriteRow).flatten

/-- Universal-newline decoding applied by the default text-mode open
at read time: CR LF and lone CR both become LF. -/
def univNewlines : List Char → List Char
  | [] => []
  | ['\r'] => ['\n']
  | '\r' :: '\n' :: rest => '\n' :: univNewlines rest
  | '\r' :: c :: rest => '\n' :: univNewlines (c :: rest)
  | c :: rest => c :: univNewlines rest

/-- States of the csv reader state machine of the csv module (excel
dialect, doublequote on, strict off). -/
inductive CsvState where
  | startRecord
  | startField
  | inField
  | inQuoted
  | quoteInQuoted
  | eatCrnl
  | err
  deriving DecidableEq, Repr

/-- Configuration of the reader: machine state, characters of the
current field, completed fields of the current record, completed
records. -/
structure CsvM where
  st : CsvState
  field : Cell
  row : List Cell
  out : List (List Cell)
  deriving DecidableEq, Repr

/-- Handling of one character in the start-of-field state (also the
fallthrough of the start-of-record state on an ordinary character): a
terminator saves an empty field and ends the record, a quote opens a
quoted field, a comma saves an empty field, anything else starts an
unquoted field. -/
def csvFieldStep (m : CsvM) (c : Char) : CsvM :=
  if c = '\n' then
    { st := .startRecord, field := [], row := [], out := m.out ++ [m.row ++ [m.field]] }
  else if c = '\r' then
    { st := .eatCrnl, field := [], row := [], out := m.out ++ [m.row ++ [m.field]] }
  else if c = '"' then { m with st := .inQuoted }
  else if c = ',' then { m with st := .startField, row := m.row ++ [m.field], field := [] }
  else { m with st := .inField, field := m.field ++ [c] }

/-- One character step of the csv reader on the decoded stream: a
record ends at LF (or CR, whose terminator is then eaten), quoted
fields accept every character, a doubled quote inside a quoted field
denotes one quote character, and a quote followed by an ordinary
character continues the field unquoted (strict off).  A non-terminator
character in the terminator-eating state is the error of the C machine
(new-line character seen in unquoted field); after universal-newline
decoding the stream holds no CR, so that state is never entered. -/
def csvStep (m : CsvM) (c : Char) : CsvM :=
  match m.st with
  | .err => m
  | .startRecord =>
    if c = '\n' then { m with out := m.out ++ [[]] }
    else if c = '\r' then { m with st := .eatCrnl, out := m.out ++ [[]] }
    else csvFieldStep m c
  | .startField => csvFieldStep m c
  | .inField =>
    if c = '\n' then
      { st := .startRecord, field := [], row := [], out := m.out ++ [m.row ++ [m.field]] }
    else if c = '\r' then
      { st := .eatCrnl, field := [], row := [], out := m.out ++ [m.row ++ [m.field]] }
    else if c = ',' then
      { m with st := .startField, row := m.row ++ [m.field], field := [] }
    else { m with field := m.field ++ [c] }
  | .inQuoted =>
    if c = '"' then { m with st := .quoteInQuoted }
    else { m with field := m.field ++ [c] }
  | .quoteInQuoted =>
    if c = '"' then { m with st := .inQuoted, field := m.field ++ ['"'] }
    else if c = ',' then
      { m with st := .startField, row := m.row ++ [m.field], field := [] }
    else if c = '\n' then
      { st := .startRecord, field := [], row := [], out := m.out ++ [m.row ++ [m.field]] }
    else if c = '\r' then
      { st := .eatCrnl, field := [], row := [], out := m.out ++ [m.row ++ [m.field]] }
    else { m with st := .inField, field := m.field ++ [c] }
  | .eatCrnl =>
    if c = '\n' then { m with st := .startRecord }
    else if c = '\r' then m
    else { m with st := .err }

/-- End-of-data handling of the reader: a pending field and record are
flushed exactly as the line-end processing of the C machine flushes
them; the error state yields none. -/
def csvFinish (m : CsvM) : Option (List (List Cell)) :=
  match m.st with
  | .err => none
  | .startRecord => some m.out
  | .eatCrnl => some m.out
  | _ => some (m.out ++ [m.row ++ [m.field]])

/-- Parse a whole decoded character stream into CSV records. -/
def csvParse (s : List Char) : Option (List (List Cell)) :=
  csvFinish (s.foldl csvStep ⟨.startRecord, [], [], []⟩)

/-- csv.DictReader on a decoded stream: the first parsed record gives
the fieldnames (no blank-row skipping there), the remaining records
are the data rows with blank rows skipped. -/
def csvDictRead (s : List Char) : Option (Option (List Cell) × List (List Cell)) :=
  (csvParse s).map fun rs =>
    match rs with
    | [] => (none, [])
    | fns :: rest => (some fns, rest.filter fun r => !decide (r = []))

/-- The full cache round trip for a table of records sharing the header
columns: write with DictWriter through the posix write text layer, then
read with DictReader through the universal-newline read text layer. -/
def csvRoundTrip (headers : List Cell) (rows : List (List Cell)) :
    Option (Option (List Cell) × List (List Cell)) :=
  csvDictRead (univNewlines (csvDictWrite headers rows))

/-! ## The dataset catalog and the cache-first download logic

download_matrix_page (wmt.py lines 161-197) keeps a raw page cache and
a derived CSV cache under the WMT root directory.  The network is
modelled as a function from URL to page body, the HTML-to-CSV
derivation of process_to_csv as a function from page text to CSV text,
and the file system as an association list from path to content with a
log of fetched URLs and a log of extraction runs. -/

/-- The static catalog data of wmt.py (lines 70-114): for every test
set, the description entry followed by the language pairs, each mapped
to its source URL, in the insertion order of the Python dict
literal. -/
def data : List (String × List (String × String)) := [
  ("wmt19", [
    ("description", "Official results for WMT19."),
    ("en-cs", "http://matrix.statmt.org/matrix/systems_list/1896"),
    ("de-cs", "http://matrix.statmt.org/matrix/systems_list/1897"),
    ("cs-de", "http://matrix.statmt.org/matrix/systems_list/1898"),
    ("de-fr", "http://matrix.statmt.org/matrix/systems_list/1899"),
    ("fr-de", "http://matrix.statmt.org/matrix/systems_list/1900"),
    ("zh-en", "http://matrix.statmt.org/matrix/systems_list/1901"),
    ("de-en", "http://matrix.statmt.org/matrix/systems_list/1902"),
    ("fi-en", "http://matrix.statmt.org/matrix/systems_list/1903"),
    ("gu-en", "http://matrix.statmt.org/matrix/systems_list/1904"),
    ("kk-en", "http://matrix.statmt.org/matrix/systems_list/1905"),
    ("lt-en", "http://matrix.statmt.org/matrix/systems_list/1906"),
    ("ru-en", "http://matrix.statmt.org/matrix/systems_list/1907"),
    ("en-zh", "http://matrix.statmt.org/matrix/systems_list/1908"),
    ("en-de", "http://matrix.statmt.org/matrix/systems_list/1909"),
    ("en-fi", "http://matrix.statmt.org/matrix/systems_list/1910"),
    ("en-gu", "http://matrix.statmt.org/matrix/systems_list/1911"),
    ("en-kk", "http://matrix.statmt.org/matrix/systems_list/1912"),
    ("en-lt", "http://matrix.statmt.org/matrix/systems_list/1913"),
    ("en-ru", "http://matrix.statmt.org/matrix/systems_list/1914")]),
  ("wmt17", [
    ("description", "Official evaluation data."),
    ("cs-en", "http://matrix.statmt.org/matrix/systems_list/1866"),
    ("de-en", "http://matrix.statmt.org/matrix/systems_list/1868"),
    ("en-cs", "http://matrix.statmt.org/matrix/systems_list/1867"),
    ("en-de", "http://matrix.statmt.org/matrix/systems_list/1869"),
    ("en-fi", "http://matrix.statmt.org/matrix/systems_list/1871"),
    ("en-lv", "http://matrix.statmt.org/matrix/systems_list/1873"),
    ("en-ru", "http://matrix.statmt.org/matrix/systems_list/1875"),
    ("en-tr", "http://matrix.statmt.org/matrix/systems_list/1877"),
    ("en-zh", "http://matrix.statmt.org/matrix/systems_list/1879"),
    ("fi-en", "http://matrix.statmt.org/matrix/systems_list/1870"),
    ("lv-en", "http://matrix.statmt.org/matrix/systems_list/1872"),
    ("ru-en", "http://matrix.statmt.org/matrix/systems_list/1874"),
    ("tr-en", "http://matrix.statmt.org/matrix/systems_list/1876"),
    ("zh-en", "http://matrix.statmt.org/matrix/systems_list/1878")]),
  ("wmt16", [
    ("description", "Official evaluation data for WMT 2016."),
    ("en-cs", "http://matrix.statmt.org/matrix/systems_list/1844")])]

/-- Keys of the catalog entry of a test set, in order: what the batch
loop of download_matrix_page iterates as data[test_set].keys()
(wmt.py line 173). -/
def batchKeys (test_set : String) : List String :=
  match data.lookup test_set with
  | none => []
  | some entry => entry.map (·.1)

/-- The language pairs of a test set as the code itself lists them in
the error path of main (wmt.py line 241): the keys holding a dash. -/
def langpairKeys (test_set : String) : List String :=
  (batchKeys test_set).filter fun k => k.toList.contains '-'

/-- Observable state of the download logic: the cache files on disk as
an association list from path to content (newest binding first), the
log of URLs fetched over the network, and the log of raw pages the
extraction was run on. -/
structure FsState where
  files : List (String × String)
  fetched : List String
  extracted : List String
  deriving DecidableEq, Repr

/-- os.path.exists on the modelled file system. -/
def pathExists (s : FsState) (p : String) : Bool := (s.files.lookup p).isSome

/-- Content of a file of the modelled file system, empty when the file
is missing. -/
def readFile (s : FsState) (p : String) : String := (s.files.lookup p).getD ""

/-- Write a file: the new binding shadows any previous one. -/
def writeFile (s : FsState) (p content : String) : FsState :=
  { s with files := (p, content) :: s.files }

/-- os.path.basename: the part of a path after the last slash. -/
def basename (p : String) : String :=
  ⟨(p.toList.reverse.takeWhile (fun c => ¬ c = '/')).reverse⟩

/-- The cache root of wmt.py line 59: the WMT environment variable or
the dot-wmt directory under the user home; only the paths built from
it matter to the claims, not its concrete value. -/
def WMT : String := "~/.wmt"

/-- Path of the raw downloaded page: the join of the cache root, the
test set, the raw subdirectory and the basename of the source URL
(wmt.py line 183). -/
def rawPagePath (test_set dataset : String) : String :=
  WMT ++ "/" ++ test_set ++ "/raw" ++ "/" ++ basename dataset

/-- Path of the derived CSV cache (wmt.py line 190). -/
def csvCachePath (test_set langpair : String) : String :=
  WMT ++ "/" ++ test_set ++ "/" ++ test_set ++ "." ++ langpair ++ ".csv"

/-- download_matrix_page for one test set and language pair (wmt.py
lines 175-197), with the network as a function from URL to page body
and the extraction of process_to_csv as a function from page text to
CSV text.  The none result models the KeyError on an unknown test set
or pair.  Otherwise the raw page is fetched only when its file is
absent, and the CSV cache is rebuilt from the raw page only when the
CSV file is absent.  Directory creation touches no file and is not
modelled. -/
def download_matrix_page_one (net : String → String) (toCsv : String → String)
    (test_set langpair : String) (s : FsState) : Option FsState :=
  match (data.lookup test_set).bind (fun e => e.lookup langpair) with
  | none => none
  | some dataset =>
    let htmlpage := rawPagePath test_set dataset
    let s1 := if pathExists s htmlpage then s
      else { writeFile s htmlpage (net dataset) with fetched := s.fetched ++ [dataset] }
    let csvfile := csvCachePath test_set langpair
    let s2 := if pathExists s1 csvfile then s1
      else { writeFile s1 csvfile (toCsv (readFile s1 htmlpage)) with
        extracted := s1.extracted ++ [htmlpage] }
    some s2

/-- download_matrix_page with langpair None (wmt.py lines 172-174): a
sequential loop over all keys of the catalog entry of the test set,
the description key included, calling the single-pair download for
each key in order. -/
def download_matrix_page_batch (net : String → String) (toCsv : String → String)
    (test_set : String) (s : FsState) : Option FsState :=
  (batchKeys test_set).foldlM
    (fun st k => download_matrix_page_one net toCsv test_set k st) s

/-- Source URL of the wmt19 en-cs page, for the cache witness. -/
def url1896 : String := "http://matrix.statmt.org/matrix/systems_list/1896"

/-- Concrete file system holding both the raw page and the CSV cache
of the wmt19 en-cs pair. -/
def fsBoth : FsState :=
  ⟨[(rawPagePath "wmt19" url1896, "page"), (csvCachePath "wmt19" "en-cs", "csv")], [], []⟩

/- ===================== THEOREMS ===================== -/

/-! ## Order facts about Python string comparison -/

theorem pyStrLt_irrefl : ∀ a : List Char, pyStrLt a a = false
  | [] => rfl
  | c :: cs => by
    simp only [pyStrLt]
    rw [if_neg (lt_irrefl c), if_neg (lt_irrefl c)]
    exact pyStrLt_irrefl cs

theorem pyStrLt_asymm : ∀ a b : List Char, pyStrLt a b = true → pyStrLt b a = false
  | [], [], h => by simp [pyStrLt] at h
  | [], _ :: _, _ => rfl
  | _ :: _, [], h => by simp [pyStrLt] at h
  | a :: as, b :: bs, h => by
    simp only [pyStrLt] at h ⊢
    rcases lt_trichotomy a b with hab | hab | hab
    · rw [if_neg (lt_asymm hab), if_pos hab]
    · subst hab
      rw [if_neg (lt_irrefl a), if_neg (lt_irrefl a)] at h ⊢
      exact pyStrLt_asymm as bs h
    · rw [if_neg (lt_asymm hab), if_pos hab] at h
      exact absurd h (by simp)

theorem pyStrLt_trans :
    ∀ a b c : List Char, pyStrLt a b = true → pyStrLt b c = true → pyStrLt a c = true
  | [], _, _ :: _, _, _ => rfl
  | [], [], [], _, h => by simp [pyStrLt] at h
  | [], _ :: _, [], _, h => by simp [pyStrLt] at h
  | _ :: _, [], _, h, _ => by simp [pyStrLt] at h
  | _ :: _, _ :: _, [], _, h => by simp [pyStrLt] at h
  | a :: as, b :: bs, c :: cs, h₁, h₂ => by
    simp only [pyStrLt] at h₁ h₂ ⊢
    rcases lt_trichotomy a b with hab | hab | hab
    · rcases lt_trichotomy b c with hbc | hbc | hbc
      · rw [if_pos (lt_trans hab hbc)]
      · subst hbc; rw [if_pos hab]
      · rw [if_neg (lt_asymm hbc), if_pos hbc] at h₂
        exact absurd h₂ (by simp)
    · subst hab
      rw [if_neg (lt_irrefl a), if_neg (lt_irrefl a)] at h₁
      rcases lt_trichotomy a c with hac | hac | hac
      · rw [if_pos hac]
      · subst hac
        rw [if_neg (lt_irrefl a), if_neg (lt_irrefl a)] at h₂ ⊢
        exact pyStrLt_trans as bs cs h₁ h₂
      · rw [if_neg (lt_asymm hac), if_pos hac] at h₂
        exact absurd h₂ (by simp)
    · rw [if_neg (lt_asymm hab), if_pos hab] at h₁
      exact absurd h₁ (by simp)

theorem pyStrLt_total :
    ∀ a b : List Char, pyStrLt a b = false → pyStrLt b a = false → a = b
  | [], [], _, _ => rfl
  | [], _ :: _, h, _ => by simp [pyStrLt] at h
  | _ :: _, [], _, h => by simp [pyStrLt] at h
  | a :: as, b :: bs, h₁, h₂ => by
    simp only [pyStrLt] at h₁ h₂
    rcases lt_trichotomy a b with hab | hab | hab
    · rw [if_pos hab] at h₁
      exact absurd h₁ (by simp)
    · subst hab
      rw [if_neg (lt_irrefl a), if_neg (lt_irrefl a)] at h₁ h₂
      rw [pyStrLt_total as bs h₁ h₂]
    · rw [if_pos hab] at h₂
      exact absurd h₂ (by simp)

theorem pyStrLt_false_trans (a b c : List Char) (h₁ : pyStrLt a b = false)
    (h₂ : pyStrLt b c = false) : pyStrLt a c = false := by
  by_contra h
  rw [Bool.not_eq_false] at h
  rcases Bool.eq_false_or_eq_true (pyStrLt c b) with hcb | hcb
  · have := pyStrLt_trans a c b h hcb
    rw [this] at h₁
    exact absurd h₁ (by simp)
  · have hbc : b = c := pyStrLt_total b c h₂ hcb
    subst hbc
    rw [h] at h₁
    exact absurd h₁ (by simp)

theorem pyLt_irrefl (a : String) : pyLt a a = false := pyStrLt_irrefl _

theorem pyLt_asymm {a b : String} (h : pyLt a b = true) : pyLt b a = false :=
  pyStrLt_asymm _ _ h

theorem pyLt_false_trans {a b c : String} (h₁ : pyLt a b = false)
    (h₂ : pyLt b c = false) : pyLt a c = false :=
  pyStrLt_false_trans _ _ _ h₁ h₂

theorem pyLt_trans {a b c : String} (h₁ : pyLt a b = true) (h₂ : pyLt b c = true) :
    pyLt a c = true :=
  pyStrLt_trans _ _ _ h₁ h₂

/-! ## Stable descending sort lemmas -/

theorem mem_insertDesc {a r : SysRow} : ∀ {l : List SysRow},
    a ∈ insertDesc r l ↔ a = r ∨ a ∈ l
  | [] => by simp [insertDesc]
  | x :: xs => by
    simp only [insertDesc]
    split
    · rw [List.mem_cons, mem_insertDesc (l := xs), List.mem_cons]
      tauto
    · rw [List.mem_cons]

theorem insertDesc_perm (r : SysRow) : ∀ l : List SysRow, List.Perm (insertDesc r l) (r :: l)
  | [] => List.Perm.refl _
  | x :: xs => by
    simp only [insertDesc]
    split
    · exact ((insertDesc_perm r xs).cons x).trans (List.Perm.swap r x xs)
    · exact List.Perm.refl _

theorem pySortDesc_perm : ∀ l : List SysRow, List.Perm (pySortDesc l) l
  | [] => List.Perm.refl _
  | x :: xs => (insertDesc_perm x (pySortDesc xs)).trans ((pySortDesc_perm xs).cons x)

theorem pairwise_insertDesc {r : SysRow} : ∀ {l : List SysRow},
    l.Pairwise scoreGe → (insertDesc r l).Pairwise scoreGe
  | [], _ => by simp [insertDesc, List.Pairwise]
  | x :: xs, h => by
    simp only [insertDesc]
    rcases List.pairwise_cons.mp h with ⟨hx, hxs⟩
    split
    · rename_i hrx
      refine List.pairwise_cons.mpr ⟨?_, pairwise_insertDesc hxs⟩
      intro b hb
      rcases mem_insertDesc.mp hb with rfl | hb
      · exact pyLt_asymm hrx
      · exact hx b hb
    · rename_i hrx
      rw [Bool.not_eq_true] at hrx
      refine List.pairwise_cons.mpr ⟨?_, h⟩
      intro b hb
      rcases List.mem_cons.mp hb with rfl | hb
      · exact hrx
      · exact pyLt_false_trans hrx (hx b hb)

theorem pySortDesc_sorted : ∀ l : List SysRow, (pySortDesc l).Pairwise scoreGe
  | [] => List.Pairwise.nil
  | x :: xs => pairwise_insertDesc (pySortDesc_sorted xs)

theorem insertDesc_of_ge {r : SysRow} {l : List SysRow}
    (h : ∀ y ∈ l, scoreGe r y) : insertDesc r l = r :: l := by
  cases l with
  | nil => rfl
  | cons x xs =>
    have hx : pyLt r.bleu_cased x.bleu_cased = false := h x (List.mem_cons_self x xs)
    simp [insertDesc, hx]

theorem pySortDesc_of_sorted : ∀ {l : List SysRow},
    l.Pairwise scoreGe → pySortDesc l = l
  | [], _ => rfl
  | x :: xs, h => by
    rcases List.pairwise_cons.mp h with ⟨hx, hxs⟩
    simp only [pySortDesc]
    rw [pySortDesc_of_sorted hxs, insertDesc_of_ge hx]

theorem filter_insertDesc (p : SysRow → Bool) (r : SysRow) : ∀ {l : List SysRow},
    l.Pairwise scoreGe →
    (insertDesc r l).filter p = if p r then insertDesc r (l.filter p) else l.filter p
  | [], _ => by
    by_cases hr : p r <;> simp [insertDesc, hr]
  | x :: xs, h => by
    rcases List.pairwise_cons.mp h with ⟨hx, hxs⟩
    simp only [insertDesc]
    split
    · rename_i hrx
      by_cases hpx : p x <;> by_cases hpr : p r <;>
        simp only [List.filter_cons, hpx, hpr, if_true, if_false,
          filter_insertDesc p r hxs, insertDesc, hrx, Bool.false_eq_true] <;> simp [hpx, hpr]
    · rename_i hrx
      rw [Bool.not_eq_true] at hrx
      by_cases hpr : p r
      · have hge : ∀ y ∈ (x :: xs).filter p, scoreGe r y := by
          intro y hy
          rcases List.mem_cons.mp (List.mem_of_mem_filter hy) with rfl | hy'
          · exact hrx
          · exact pyLt_false_trans hrx (hx y hy')
        have hfil : List.filter p (r :: x :: xs) = r :: List.filter p (x :: xs) := by
          simp [List.filter_cons, hpr]
        rw [hfil, if_pos hpr, insertDesc_of_ge hge]
      · simp [List.filter_cons, hpr]

theorem filter_pySortDesc (p : SysRow → Bool) : ∀ l : List SysRow,
    (pySortDesc l).filter p = pySortDesc (l.filter p)
  | [] => rfl
  | x :: xs => by
    simp only [pySortDesc]
    rw [filter_insertDesc p x (pySortDesc_sorted xs), filter_pySortDesc p xs]
    by_cases hpx : p x <;> simp [List.filter_cons, hpx, pySortDesc]

/-! ## Ranking loop lemmas -/

theorem rankLoop_zero (c : Bool) : ∀ (i : Int) (l : List SysRow),
    rankLoop c 0 i l = l.filter (survives c)
  | _, [] => rfl
  | i, row :: rest => by
    simp only [rankLoop, survives, List.filter_cons]
    by_cases hf : row.bleu_cased = "failed"
    · simp [hf, rankLoop_zero c i rest]
    · by_cases hc : (!c || decide (row.constraint = "yes")) = true
      · simp [hf, hc, rankLoop_zero c (i + 1) rest]
      · simp only [Bool.not_eq_true] at hc
        simp [hf, hc, rankLoop_zero c i rest]

theorem rankLoop_neg {c : Bool} {k : Int} (hk : k < 0) : ∀ (i : Int), 0 ≤ i →
    ∀ (l : List SysRow), rankLoop c k i l = []
  | _, _, [] => rfl
  | i, hi, row :: rest => by
    have hcond : ¬(k = 0 ∨ i + 1 ≤ k) := by omega
    simp only [rankLoop]
    by_cases hf : row.bleu_cased = "failed"
    · simp [hf, rankLoop_neg hk i hi rest]
    · by_cases hc : (!c || decide (row.constraint = "yes")) = true
      · simp [hf, hc, hcond, rankLoop_neg hk (i + 1) (by omega) rest]
      · simp only [Bool.not_eq_true] at hc
        simp [hf, hc, rankLoop_neg hk i hi rest]

theorem rankLoop_pos {c : Bool} {k : Int} (hk : 0 < k) : ∀ (i : Int) (l : List SysRow),
    rankLoop c k i l = (l.filter (survives c)).take (k - i).toNat
  | _, [] => by simp [rankLoop]
  | i, row :: rest => by
    simp only [rankLoop, survives, List.filter_cons]
    by_cases hf : row.bleu_cased = "failed"
    · simp [hf, rankLoop_pos hk i rest]
    · by_cases hc : (!c || decide (row.constraint = "yes")) = true
      · by_cases hik : i + 1 ≤ k
        · have hsucc : (k - i).toNat = (k - (i + 1)).toNat + 1 := by omega
          simp [hf, hc, hik, rankLoop_pos hk (i + 1) rest, hsucc]
        · have hcond : ¬(k = 0 ∨ i + 1 ≤ k) := by omega
          have hz : (k - i).toNat = 0 := by omega
          have hz' : (k - (i + 1)).toNat = 0 := by omega
          simp [hf, hc, hcond, rankLoop_pos hk (i + 1) rest, hz, hz']
      · simp only [Bool.not_eq_true] at hc
        simp [hf, hc, rankLoop_pos hk i rest]

theorem rank_zero (d : List SysRow) (c : Bool) :
    rank d c 0 = (pySortDesc d).filter (survives c) :=
  rankLoop_zero c 0 (pySortDesc d)

theorem survives_iff (c : Bool) (r : SysRow) :
    survives c r = true ↔ r.bleu_cased ≠ "failed" ∧ (c = true → r.constraint = "yes") := by
  cases c <;> simp [survives]

theorem mem_rankLoop {c : Bool} {k : Int} {r : SysRow} : ∀ {i : Int} {l : List SysRow},
    r ∈ rankLoop c k i l → r ∈ l ∧ survives c r = true := by
  intro i l
  induction l generalizing i with
  | nil => intro h; simp [rankLoop] at h
  | cons row rest ih =>
    intro h
    simp only [rankLoop] at h
    by_cases hf : row.bleu_cased = "failed"
    · rw [if_pos hf] at h
      rcases ih h with ⟨h₁, h₂⟩
      exact ⟨List.mem_cons_of_mem _ h₁, h₂⟩
    · rw [if_neg hf] at h
      by_cases hc : (!c || decide (row.constraint = "yes")) = true
      · rw [if_pos hc] at h
        split at h
        · rcases List.mem_cons.mp h with rfl | h'
          · refine ⟨List.mem_cons_self _ _, ?_⟩
            simp only [survives, hc, Bool.and_true]
            simp [hf]
          · rcases ih h' with ⟨h₁, h₂⟩
            exact ⟨List.mem_cons_of_mem _ h₁, h₂⟩
        · rcases ih h with ⟨h₁, h₂⟩
          exact ⟨List.mem_cons_of_mem _ h₁, h₂⟩
      · simp only [Bool.not_eq_true] at hc
        rw [if_neg (by simp [hc])] at h
        rcases ih h with ⟨h₁, h₂⟩
        exact ⟨List.mem_cons_of_mem _ h₁, h₂⟩

/-! ## Claims about the ranking loop -/

/-- C1: for every sequence of records, rank sorts the records surviving
the filters by the BLEU-cased value compared as a string in descending
lexical order (never coerced to a number), records with equal scores
keep their original relative order (stable sort), and in particular the
scores 9.9, 10.1 and 2.0 come out in the order 9.9, 2.0, 10.1. -/
theorem claim_C1_string_sort_stable (d : List SysRow) (c : Bool) :
    rank d c 0 = pySortDesc (d.filter (survives c))
    ∧ (rank d c 0).Pairwise scoreGe
    ∧ (∀ v : String, (rank d c 0).filter (fun r => decide (r.bleu_cased = v)) =
        (d.filter (survives c)).filter (fun r => decide (r.bleu_cased = v)))
    ∧ rank [rowA, rowB, rowC] false 0 = [rowA, rowC, rowB] := by
  refine ⟨?_, ?_, ?_, by decide⟩
  · rw [rank_zero, filter_pySortDesc]
  · rw [rank_zero]
    exact (pySortDesc_sorted d).filter _
  · intro v
    rw [rank_zero, List.filter_filter, List.filter_filter, filter_pySortDesc]
    refine pySortDesc_of_sorted (List.pairwise_of_forall_mem_list ?_)
    intro a ha b hb
    have hav : a.bleu_cased = v := by
      have := (List.mem_filter.mp ha).2
      simp only [Bool.and_eq_true, decide_eq_true_eq] at this
      exact this.1
    have hbv : b.bleu_cased = v := by
      have := (List.mem_filter.mp hb).2
      simp only [Bool.and_eq_true, decide_eq_true_eq] at this
      exact this.1
    show pyLt a.bleu_cased b.bleu_cased = false
    rw [hav, hbv]
    exact pyLt_irrefl v

/-- C3: a record appears in the output of rank (with top_k 0, which
returns every survivor) exactly when its BLEU-cased value is not the
sentinel string failed and, when the constrained flag is set, its
Constraint field equals yes; moreover for every top_k whatever is
emitted satisfies those filters, so a record with score failed is
excluded regardless of its position. -/
theorem claim_C3_filters (d : List SysRow) (c : Bool) (r : SysRow) :
    (r ∈ rank d c 0 ↔
      r ∈ d ∧ r.bleu_cased ≠ "failed" ∧ (c = true → r.constraint = "yes"))
    ∧ ∀ k : Int, r ∈ rank d c k →
        r.bleu_cased ≠ "failed" ∧ (c = true → r.constraint = "yes") := by
  constructor
  · rw [rank_zero, List.mem_filter, (pySortDesc_perm d).mem_iff, survives_iff]
  · intro k h
    rw [rank] at h
    exact (survives_iff c r).mp (mem_rankLoop h).2

/-- Witness for C3 at concrete inputs: the failed row is absent from
the ranking of a two-row table and the surviving row is present. -/
theorem claim_C3_filters_witness :
    rowF ∉ rank [rowA, rowF] false 0 ∧ rowA ∈ rank [rowA, rowF] false 0 :=
  ⟨fun h => ((claim_C3_filters [rowA, rowF] false rowF).1.mp h).2.1 (by decide),
   (claim_C3_filters [rowA, rowF] false rowA).1.mpr
     ⟨by decide, by decide, by decide⟩⟩

/-- C4: rank with top_k 0 returns all surviving records post-filter and
post-sort, and rank with positive top_k returns the prefix of the first
top_k records of that full sequence, hence at most top_k records. -/
theorem claim_C4_topk (d : List SysRow) (c : Bool) :
    rank d c 0 = (pySortDesc d).filter (survives c)
    ∧ ∀ k : Int, 0 < k →
        rank d c k = (rank d c 0).take k.toNat
        ∧ (rank d c k).length ≤ k.toNat := by
  refine ⟨rank_zero d c, ?_⟩
  intro k hk
  have h := rankLoop_pos (c := c) hk 0 (pySortDesc d)
  have hz : (k - 0).toNat = k.toNat := by omega
  rw [hz] at h
  have hr : rank d c k = ((pySortDesc d).filter (survives c)).take k.toNat := h
  refine ⟨?_, ?_⟩
  · rw [hr, rank_zero]
  · rw [hr]
    exact List.length_take_le _ _

/-- Witness for C4 at concrete inputs: with top_k 1 the ranking of the
three example rows is the one-element prefix of the full ranking. -/
theorem claim_C4_topk_witness :
    (0 : Int) < 1
    ∧ rank [rowA, rowB, rowC] false 1 = (rank [rowA, rowB, rowC] false 0).take (1 : Int).toNat
    ∧ (rank [rowA, rowB, rowC] false 1).length ≤ (1 : Int).toNat :=
  ⟨by decide, (claim_C4_topk [rowA, rowB, rowC] false).2 1 (by decide)⟩

/-- C10: with a negative top_k the emission condition of the loop is
never satisfied, because the counter is at least 1 at every test and
top_k is neither 0 nor at least the counter, so rank emits nothing. -/
theorem claim_C10_negative_topk (d : List SysRow) (c : Bool) (k : Int) (hk : k < 0) :
    rank d c k = [] :=
  rankLoop_neg hk 0 (le_refl 0) (pySortDesc d)

/-- Witness for C10 at concrete inputs: top_k equal to -1 yields the
empty output on the three example rows. -/
theorem claim_C10_negative_topk_witness :
    (-1 : Int) < 0 ∧ rank [rowA, rowB, rowC] false (-1) = [] :=
  ⟨by decide, claim_C10_negative_topk [rowA, rowB, rowC] false (-1) (by decide)⟩

/-! ## Traversal lemmas for the HTML tree -/

mutual
theorem filterMap_nodeText_desc :
    ∀ n : Node, (descendants n).filterMap nodeText = textsBelow n
  | .elem nm cs => by
    simp only [descendants, textsBelow]
    exact filterMap_nodeText_descList cs
  | .str s => rfl
theorem filterMap_nodeText_descList :
    ∀ l : NodeList, (descendantsList l).filterMap nodeText = textsBelowList l
  | .nil => rfl
  | .cons (.str s) cs => by
    rw [descendantsList, textsBelowList]
    have hd : descendants (Node.str s) = [] := rfl
    rw [hd, List.singleton_append, List.filterMap_cons]
    simp only [nodeText]
    rw [filterMap_nodeText_descList cs]
  | .cons (.elem nm gs) cs => by
    rw [descendantsList, textsBelowList]
    have hd : descendants (Node.elem nm gs) = descendantsList gs := rfl
    rw [hd, List.cons_append, List.filterMap_cons]
    simp only [nodeText]
    rw [List.filterMap_append, filterMap_nodeText_descList gs,
      filterMap_nodeText_descList cs]
end

mutual
theorem filter_isTagP_desc :
    ∀ n : Node, (descendants n).filter (isTag "p") = pElems n
  | .elem nm cs => by
    simp only [descendants, pElems]
    exact filter_isTagP_descList cs
  | .str s => rfl
theorem filter_isTagP_descList :
    ∀ l : NodeList, (descendantsList l).filter (isTag "p") = pElemsList l
  | .nil => rfl
  | .cons c cs => by
    rw [descendantsList, pElemsList, List.cons_append, List.filter_cons,
      List.filter_append, filter_isTagP_desc c, filter_isTagP_descList cs]
    by_cases h : isTag "p" c
    · simp [h]
    · simp [h]
end

theorem findFirstText_eq (n : Node) : findFirstText n = (textsBelow n).head? := by
  rw [findFirstText, filterMap_nodeText_desc]

theorem findAll_p_eq (n : Node) : findAll "p" n = pElems n := by
  rw [findAll, filter_isTagP_desc]

/-! ## Claims about the per-cell extraction rule and the extractor -/

/-- C5 (amended): for every table cell, when exactly one p element
occurs anywhere below the cell the extracted value is the first string
below that p element; otherwise the value is the first string anywhere
below the cell itself in document order, nested sub-elements included,
rather than only the cell own direct text; in both cases trailing
whitespace is trimmed and a cell with no text yields the empty
string. -/
theorem claim_C5_cell_rule (node : Node) : leaf node = leafAmended node := by
  simp only [leaf, leafAmended, findTag, findAll_p_eq, findFirstText_eq]

/-- Counterexample to C5 as stated: a cell whose only text sits inside
a nested sub-element and that has no p element; the code extracts that
nested text while the stated rule, which falls back to the cell own
direct text, yields the empty string. -/
theorem claim_C5_counterexample :
    leaf nestedCell = "x" ∧ leafClaim nestedCell = ""
    ∧ leaf nestedCell ≠ leafClaim nestedCell := by
  refine ⟨rfl, rfl, ?_⟩
  decide

/-- C6 (amended): for every document whose first table has a header
row and whose data rows all have as many td cells as the header has th
cells, extract succeeds with one record per data row, and the record
keys are the header cell texts of the first row, each taken as the
first string in the header cell subtree with no trimming. -/
theorem claim_C6_header_keys (doc table r0 : Node) (rest : List Node)
    (htab : findTag "table" doc = some table)
    (hrows : findAll "tr" table = r0 :: rest)
    (hshape : ∀ r ∈ rest, (findAll "td" r).length = (findAll "th" r0).length) :
    extract doc = some (headerTexts r0, rest.map rowValues)
    ∧ (rest.map rowValues).length = rest.length := by
  have hlen : ∀ v ∈ rest.map rowValues, v.length = (headerTexts r0).length := by
    intro v hv
    rcases List.mem_map.mp hv with ⟨r, hr, rfl⟩
    rw [rowValues, List.length_map, headerTexts, List.length_map]
    exact hshape r hr
  constructor
  · simp only [extract, htab, hrows]
    congr 1
    congr 1
    exact List.filter_eq_self.mpr (fun v hv => by simp [hlen v hv])
  · exact List.length_map _ _

/-- Witness for the amended C6 at a concrete document with one header
cell and one well-shaped data row. -/
theorem claim_C6_header_keys_witness :
    extract docC6 = some (headerTexts trHead6, [trRow6].map rowValues)
    ∧ ([trRow6].map rowValues).length = [trRow6].length :=
  claim_C6_header_keys docC6 tableC6 trHead6 [trRow6] rfl rfl (by decide)

/-- Counterexample to C6 as stated: a header cell whose text carries
surrounding spaces; the code keeps the spaces in the record key, while
the claim says the key is the text trimmed of surrounding whitespace,
which differs. -/
theorem claim_C6_counterexample :
    extract docC6 = some ([some " System "], [["x"]])
    ∧ pyStrip " System " = "System"
    ∧ (" System " : String) ≠ "System" :=
  ⟨rfl, rfl, by decide⟩

/-- C7: when the first table exists and has a header row, extraction
succeeds and never raises because of a malformed row; every row whose
extracted value count differs from the header count is absent from the
output, and the kept rows appear in encountered order as the filter of
the data rows. -/
theorem claim_C7_mismatched_rows (doc table r0 : Node) (rest : List Node)
    (htab : findTag "table" doc = some table)
    (hrows : findAll "tr" table = r0 :: rest) :
    ∃ vals, extract doc = some (headerTexts r0, vals)
      ∧ (∀ v ∈ vals, v.length = (headerTexts r0).length)
      ∧ List.Sublist vals (rest.map rowValues)
      ∧ vals = (rest.map rowValues).filter
          (fun v => decide (v.length = (headerTexts r0).length)) := by
  refine ⟨_, ?_, ?_, ?_, rfl⟩
  · simp only [extract, htab, hrows]
  · intro v hv
    have := List.of_mem_filter hv
    simpa using this
  · exact List.filter_sublist _

/-- Witness for C7 at a concrete document whose second data row has a
surplus td cell and is dropped. -/
theorem claim_C7_mismatched_rows_witness :
    ∃ vals, extract docC7 = some (headerTexts trHead6, vals)
      ∧ (∀ v ∈ vals, v.length = (headerTexts trHead6).length)
      ∧ List.Sublist vals ([trRow6, trRow7].map rowValues)
      ∧ vals = ([trRow6, trRow7].map rowValues).filter
          (fun v => decide (v.length = (headerTexts trHead6).length)) :=
  claim_C7_mismatched_rows docC7 tableC7 trHead6 [trRow6, trRow7] rfl rfl

/-! ## Text-layer lemmas for the CSV round trip -/

theorem univNewlines_cons_ne {c : Char} (h : c ≠ '\r') (t : List Char) :
    univNewlines (c :: t) = c :: univNewlines t := by
  cases t with
  | nil => simp [univNewlines, h]
  | cons c2 t2 => simp [univNewlines, h]

theorem univNewlines_crlf (t : List Char) :
    univNewlines ('\r' :: '\n' :: t) = '\n' :: univNewlines t := rfl

theorem univNewlines_append_noCR : ∀ {s : List Char}, '\r' ∉ s →
    ∀ t, univNewlines (s ++ t) = s ++ univNewlines t
  | [], _, t => rfl
  | c :: s', h, t => by
    have hc : c ≠ '\r' := fun hc => h (hc ▸ List.mem_cons_self c s')
    have hs : '\r' ∉ s' := fun hs => h (List.mem_cons_of_mem c hs)
    rw [List.cons_append, univNewlines_cons_ne hc, univNewlines_append_noCR hs t]
    rfl

theorem noCR_encode {f : Cell} (h : '\r' ∉ f) : '\r' ∉ csvEncodeField f := by
  rw [csvEncodeField]
  split
  · rw [csvQuote]
    intro hmem
    rcases List.mem_append.mp hmem with hmem | hmem
    · rcases List.mem_cons.mp hmem with hq | hmem
      · exact absurd hq (by decide)
      · rcases List.mem_flatMap.mp hmem with ⟨c, hc, hin⟩
        by_cases hcq : c = '"'
        · rw [if_pos hcq] at hin
          rcases List.mem_cons.mp hin with hr | hr
          · exact absurd hr (by decide)
          · exact absurd (List.mem_singleton.mp hr) (by decide)
        · rw [if_neg hcq] at hin
          have hrc : '\r' = c := List.mem_singleton.mp hin
          rw [← hrc] at hc
          exact h hc
    · exact absurd (List.mem_singleton.mp hmem) (by decide)
  · exact h

theorem noCR_joinFields : ∀ {fs : List Cell}, (∀ f ∈ fs, '\r' ∉ f) →
    '\r' ∉ csvJoinFields fs
  | [], _ => by simp [csvJoinFields]
  | [f], h => by
    rw [csvJoinFields]
    exact noCR_encode (h f (List.mem_singleton.mpr rfl))
  | f :: g :: fs, h => by
    have hj : csvJoinFields (f :: g :: fs) =
        csvEncodeField f ++ ',' :: csvJoinFields (g :: fs) := rfl
    rw [hj]
    intro hmem
    rcases List.mem_append.mp hmem with hmem | hmem
    · exact noCR_encode (h f (List.mem_cons_self _ _)) hmem
    · rcases List.mem_cons.mp hmem with hc | hmem
      · exact absurd hc (by decide)
      · exact noCR_joinFields (fun x hx => h x (List.mem_cons_of_mem f hx)) hmem

theorem noCR_rowBody {fs : List Cell} (h : ∀ f ∈ fs, '\r' ∉ f) :
    '\r' ∉ csvRowBody fs := by
  rw [csvRowBody]
  split
  · decide
  · exact noCR_joinFields h

/-! ## Reader machine lemmas -/

theorem csvNeedsQuote_cons_false {c : Char} {f : Cell}
    (h : csvNeedsQuote (c :: f) = false) :
    c ≠ ',' ∧ c ≠ '"' ∧ c ≠ '\r' ∧ c ≠ '\n' ∧ csvNeedsQuote f = false := by
  simp [csvNeedsQuote, List.any_cons] at h ⊢
  tauto

theorem foldl_inField : ∀ {f : Cell}, csvNeedsQuote f = false →
    ∀ (g : Cell) (row : List Cell) (out : List (List Cell)),
    List.foldl csvStep ⟨.inField, g, row, out⟩ f = ⟨.inField, g ++ f, row, out⟩
  | [], _, g, row, out => by simp
  | c :: f', h, g, row, out => by
    rcases csvNeedsQuote_cons_false h with ⟨h1, h2, h3, h4, h5⟩
    rw [List.foldl_cons]
    have hstep : csvStep ⟨.inField, g, row, out⟩ c = ⟨.inField, g ++ [c], row, out⟩ := by
      simp [csvStep, h1, h3, h4]
    rw [hstep, foldl_inField h5 (g ++ [c]) row out, List.append_assoc]
    rfl

theorem foldl_inQuoted : ∀ (f g : Cell) (row : List Cell) (out : List (List Cell)),
    List.foldl csvStep ⟨.inQuoted, g, row, out⟩ (csvEscape f) = ⟨.inQuoted, g ++ f, row, out⟩
  | [], g, row, out => by simp [csvEscape]
  | c :: f', g, row, out => by
    have he : csvEscape (c :: f') = (if c = '"' then ['"', '"'] else [c]) ++ csvEscape f' := by
      simp [csvEscape]
    rw [he]
    by_cases hc : c = '"'
    · subst hc
      rw [if_pos rfl]
      have s1 : csvStep ⟨.inQuoted, g, row, out⟩ '"' = ⟨.quoteInQuoted, g, row, out⟩ := by
        simp [csvStep]
      have s2 : csvStep ⟨.quoteInQuoted, g, row, out⟩ '"'
          = ⟨.inQuoted, g ++ ['"'], row, out⟩ := by
        simp [csvStep]
      rw [show (['"', '"'] ++ csvEscape f' : List Char)
          = '"' :: '"' :: csvEscape f' from rfl]
      rw [List.foldl_cons, s1, List.foldl_cons, s2,
        foldl_inQuoted f' (g ++ ['"']) row out, List.append_assoc]
      rfl
    · rw [if_neg hc, List.singleton_append, List.foldl_cons]
      have s1 : csvStep ⟨.inQuoted, g, row, out⟩ c = ⟨.inQuoted, g ++ [c], row, out⟩ := by
        simp [csvStep, hc]
      rw [s1, foldl_inQuoted f' (g ++ [c]) row out, List.append_assoc]
      rfl

theorem foldl_field_comma (f : Cell) (row : List Cell) (out : List (List Cell))
    (rest : List Char) :
    List.foldl csvStep ⟨.startField, [], row, out⟩ (csvEncodeField f ++ ',' :: rest) =
    List.foldl csvStep ⟨.startField, [], row ++ [f], out⟩ rest := by
  by_cases hq : csvNeedsQuote f = true
  · rw [csvEncodeField, if_pos hq, csvQuote]
    have hn : (('"' :: csvEscape f ++ ['"']) ++ ',' :: rest : List Char)
        = '"' :: (csvEscape f ++ ('"' :: ',' :: rest)) := by simp
    rw [hn, List.foldl_cons]
    have s1 : csvStep ⟨.startField, [], row, out⟩ '"' = ⟨.inQuoted, [], row, out⟩ := by
      simp [csvStep, csvFieldStep]
    rw [s1, List.foldl_append, foldl_inQuoted f [] row out, List.nil_append]
    have s2 : csvStep ⟨.inQuoted, f, row, out⟩ '"' = ⟨.quoteInQuoted, f, row, out⟩ := by
      simp [csvStep]
    have s3 : csvStep ⟨.quoteInQuoted, f, row, out⟩ ','
        = ⟨.startField, [], row ++ [f], out⟩ := by
      simp [csvStep]
    rw [List.foldl_cons, s2, List.foldl_cons, s3]
  · have hqf : csvNeedsQuote f = false := Bool.eq_false_iff.mpr hq
    rw [csvEncodeField, if_neg hq]
    cases f with
    | nil =>
      rw [List.nil_append, List.foldl_cons]
      have s1 : csvStep ⟨.startField, [], row, out⟩ ','
          = ⟨.startField, [], row ++ [[]], out⟩ := by
        simp [csvStep, csvFieldStep]
      rw [s1]
    | cons c f' =>
      rcases csvNeedsQuote_cons_false hqf with ⟨h1, h2, h3, h4, h5⟩
      rw [List.cons_append, List.foldl_cons]
      have s1 : csvStep ⟨.startField, [], row, out⟩ c = ⟨.inField, [c], row, out⟩ := by
        simp [csvStep, csvFieldStep, h1, h2, h3, h4]
      rw [s1, List.foldl_append, foldl_inField h5 [c] row out]
      have s2 : csvStep ⟨.inField, [c] ++ f', row, out⟩ ','
          = ⟨.startField, [], row ++ [[c] ++ f'], out⟩ := by
        simp [csvStep]
      rw [List.foldl_cons, s2]
      rfl

theorem foldl_field_newline (f : Cell) (row : List Cell) (out : List (List Cell))
    (rest : List Char) :
    List.foldl csvStep ⟨.startField, [], row, out⟩ (csvEncodeField f ++ '\n' :: rest) =
    List.foldl csvStep ⟨.startRecord, [], [], out ++ [row ++ [f]]⟩ rest := by
  by_cases hq : csvNeedsQuote f = true
  · rw [csvEncodeField, if_pos hq, csvQuote]
    have hn : (('"' :: csvEscape f ++ ['"']) ++ '\n' :: rest : List Char)
        = '"' :: (csvEscape f ++ ('"' :: '\n' :: rest)) := by simp
    rw [hn, List.foldl_cons]
    have s1 : csvStep ⟨.startField, [], row, out⟩ '"' = ⟨.inQuoted, [], row, out⟩ := by
      simp [csvStep, csvFieldStep]
    rw [s1, List.foldl_append, foldl_inQuoted f [] row out, List.nil_append]
    have s2 : csvStep ⟨.inQuoted, f, row, out⟩ '"' = ⟨.quoteInQuoted, f, row, out⟩ := by
      simp [csvStep]
    have s3 : csvStep ⟨.quoteInQuoted, f, row, out⟩ '\n'
        = ⟨.startRecord, [], [], out ++ [row ++ [f]]⟩ := by
      simp [csvStep]
    rw [List.foldl_cons, s2, List.foldl_cons, s3]
  · have hqf : csvNeedsQuote f = false := Bool.eq_false_iff.mpr hq
    rw [csvEncodeField, if_neg hq]
    cases f with
    | nil =>
      rw [List.nil_append, List.foldl_cons]
      have s1 : csvStep ⟨.startField, [], row, out⟩ '\n'
          = ⟨.startRecord, [], [], out ++ [row ++ [[]]]⟩ := by
        simp [csvStep, csvFieldStep]
      rw [s1]
    | cons c f' =>
      rcases csvNeedsQuote_cons_false hqf with ⟨h1, h2, h3, h4, h5⟩
      rw [List.cons_append, List.foldl_cons]
      have s1 : csvStep ⟨.startField, [], row, out⟩ c = ⟨.inField, [c], row, out⟩ := by
        simp [csvStep, csvFieldStep, h1, h2, h3, h4]
      rw [s1, List.foldl_append, foldl_inField h5 [c] row out]
      have s2 : csvStep ⟨.inField, [c] ++ f', row, out⟩ '\n'
          = ⟨.startRecord, [], [], out ++ [row ++ [[c] ++ f']]⟩ := by
        simp [csvStep]
      rw [List.foldl_cons, s2]
      rfl

theorem csvEncodeField_head {f : Cell} {c : Char} {t : List Char}
    (h : csvEncodeField f = c :: t) : c ≠ '\n' ∧ c ≠ '\r' := by
  rw [csvEncodeField] at h
  split at h
  · rw [csvQuote] at h
    have hc : c = '"' := by
      have := congrArg List.head? h
      simpa using this.symm
    subst hc
    exact ⟨by decide, by decide⟩
  · rename_i hq
    have hqf : csvNeedsQuote f = false := Bool.eq_false_iff.mpr hq
    rw [h] at hqf
    rcases csvNeedsQuote_cons_false hqf with ⟨_, _, h3, h4, _⟩
    exact ⟨h4, h3⟩

theorem csvJoinFields_head : ∀ {fs : List Cell} {c : Char} {t : List Char},
    csvJoinFields fs = c :: t → c ≠ '\n' ∧ c ≠ '\r'
  | [], c, t, h => by simp [csvJoinFields] at h
  | [f], c, t, h => by
    rw [csvJoinFields] at h
    exact csvEncodeField_head h
  | f :: g :: fs', c, t, h => by
    have hj : csvJoinFields (f :: g :: fs') =
        csvEncodeField f ++ ',' :: csvJoinFields (g :: fs') := rfl
    rw [hj] at h
    cases hf : csvEncodeField f with
    | nil =>
      rw [hf, List.nil_append] at h
      have hc : c = ',' := ((List.cons.injEq _ _ _ _).mp h).1.symm
      subst hc
      exact ⟨by decide, by decide⟩
    | cons e et =>
      rw [hf, List.cons_append] at h
      have hc : e = c := (List.cons.injEq _ _ _ _).mp h |>.1
      exact hc ▸ csvEncodeField_head hf

theorem csvJoinFields_eq_nil : ∀ {fs : List Cell}, csvJoinFields fs = [] →
    fs = [] ∨ fs = [[]]
  | [], _ => Or.inl rfl
  | [f], h => by
    rw [csvJoinFields, csvEncodeField] at h
    split at h
    · rw [csvQuote] at h
      exact absurd h (by simp)
    · subst h
      exact Or.inr rfl
  | f :: g :: fs', h => by
    have hj : csvJoinFields (f :: g :: fs') =
        csvEncodeField f ++ ',' :: csvJoinFields (g :: fs') := rfl
    rw [hj] at h
    rcases List.append_eq_nil.mp h with ⟨_, h2⟩
    exact absurd h2 (by simp)

theorem csvFieldStep_st_irrel (s1 s2 : CsvState) (fd : Cell) (row : List Cell)
    (out : List (List Cell)) (c : Char) :
    csvFieldStep ⟨s1, fd, row, out⟩ c = csvFieldStep ⟨s2, fd, row, out⟩ c := by
  simp only [csvFieldStep]

theorem foldl_join : ∀ {fs : List Cell}, fs ≠ [] →
    ∀ (row : List Cell) (out : List (List Cell)) (rest : List Char),
    List.foldl csvStep ⟨.startField, [], row, out⟩ (csvJoinFields fs ++ '\n' :: rest) =
    List.foldl csvStep ⟨.startRecord, [], [], out ++ [row ++ fs]⟩ rest
  | [], h, _, _, _ => absurd rfl h
  | [f], _, row, out, rest => by
    rw [csvJoinFields, foldl_field_newline]
  | f :: g :: fs', _, row, out, rest => by
    have hj : csvJoinFields (f :: g :: fs') =
        csvEncodeField f ++ ',' :: csvJoinFields (g :: fs') := rfl
    have hn : (csvEncodeField f ++ ',' :: csvJoinFields (g :: fs')) ++ '\n' :: rest
        = csvEncodeField f ++ ',' :: (csvJoinFields (g :: fs') ++ '\n' :: rest) := by
      simp
    rw [hj, hn, foldl_field_comma,
      foldl_join (List.cons_ne_nil g fs') (row ++ [f]) out rest, List.append_assoc]
    rfl

theorem foldl_row {fs : List Cell} (h : fs ≠ []) (out : List (List Cell))
    (rest : List Char) :
    List.foldl csvStep ⟨.startRecord, [], [], out⟩ (csvRowBody fs ++ '\n' :: rest) =
    List.foldl csvStep ⟨.startRecord, [], [], out ++ [fs]⟩ rest := by
  rw [csvRowBody]
  split
  · rename_i hsp
    rcases csvJoinFields_eq_nil hsp.2 with rfl | rfl
    · exact absurd rfl h
    · have hstream : ((['"', '"'] : List Char) ++ '\n' :: rest)
          = '"' :: '"' :: '\n' :: rest := rfl
      rw [hstream, List.foldl_cons, List.foldl_cons, List.foldl_cons]
      have s1 : csvStep ⟨.startRecord, [], [], out⟩ '"' = ⟨.inQuoted, [], [], out⟩ := by
        simp [csvStep, csvFieldStep]
      rw [s1]
      have s2 : csvStep ⟨.inQuoted, [], [], out⟩ '"' = ⟨.quoteInQuoted, [], [], out⟩ := by
        simp [csvStep]
      rw [s2]
      have s3 : csvStep ⟨.quoteInQuoted, [], [], out⟩ '\n'
          = ⟨.startRecord, [], [], out ++ [[[]]]⟩ := by
        simp [csvStep]
      rw [s3]
  · rename_i hsp
    have hjoin : csvJoinFields fs ≠ [] := fun hnil => hsp ⟨h, hnil⟩
    cases hj : csvJoinFields fs with
    | nil => exact absurd hj hjoin
    | cons c t =>
      rcases csvJoinFields_head hj with ⟨hn, hr⟩
      rw [List.cons_append, List.foldl_cons]
      have s1 : csvStep ⟨.startRecord, [], [], out⟩ c
          = csvFieldStep ⟨.startField, ([] : Cell), ([] : List Cell), out⟩ c := by
        rw [csvStep]
        rw [if_neg hn, if_neg hr]
        exact csvFieldStep_st_irrel _ _ _ _ _ _
      have s2 : csvStep ⟨.startField, ([] : Cell), ([] : List Cell), out⟩ c
          = csvFieldStep ⟨.startField, ([] : Cell), ([] : List Cell), out⟩ c := rfl
      rw [s1, ← s2]
      have hfold : List.foldl csvStep (⟨.startField, [], [], out⟩ : CsvM)
          ((c :: t) ++ '\n' :: rest)
          = List.foldl csvStep ⟨.startRecord, [], [], out ++ [fs]⟩ rest := by
        rw [← hj, foldl_join h [] out rest, List.nil_append]
      exact hfold

theorem foldl_allRows : ∀ {rows : List (List Cell)}, (∀ r ∈ rows, r ≠ []) →
    (∀ r ∈ rows, ∀ f ∈ r, '\r' ∉ f) → ∀ out : List (List Cell),
    List.foldl csvStep ⟨.startRecord, [], [], out⟩
      (univNewlines (rows.map csvWriteRow).flatten) = ⟨.startRecord, [], [], out ++ rows⟩
  | [], _, _, out => by simp [univNewlines]
  | r :: rs, hne, hC, out => by
    have h1 : (List.map csvWriteRow (r :: rs)).flatten
        = csvRowBody r ++ ('\r' :: '\n' :: (List.map csvWriteRow rs).flatten) := by
      simp [csvWriteRow]
    rw [h1, univNewlines_append_noCR (noCR_rowBody (hC r (List.mem_cons_self r rs))),
      univNewlines_crlf, foldl_row (hne r (List.mem_cons_self r rs)),
      foldl_allRows (fun x hx => hne x (List.mem_cons_of_mem r hx))
        (fun x hx => hC x (List.mem_cons_of_mem r hx)) (out ++ [r]),
      List.append_assoc]
    rfl

/-! ## Claim C2: the CSV round trip -/

/-- C2 (amended): for every ordered sequence of records over a
non-empty shared column set, provided no column name and no cell value
contains a carriage-return character, reading back the tabular file
produced by writing the sequence yields exactly the original headers
and rows in order; in particular values containing the comma
delimiter, the quote character or a line feed round-trip exactly.  A
carriage return inside a cell is lost because the universal-newline
read layer of the default text-mode open turns it into a line feed. -/
theorem claim_C2_roundtrip (headers : List Cell) (rows : List (List Cell))
    (hh : headers ≠ [])
    (hhC : ∀ f ∈ headers, '\r' ∉ f)
    (hrne : ∀ r ∈ rows, r ≠ [])
    (hrC : ∀ r ∈ rows, ∀ f ∈ r, '\r' ∉ f) :
    csvRoundTrip headers rows = some (some headers, rows) := by
  rw [csvRoundTrip, csvDictWrite]
  have h1 : csvWriteRow headers ++ (rows.map csvWriteRow).flatten
      = csvRowBody headers ++ ('\r' :: '\n' :: (rows.map csvWriteRow).flatten) := by
    simp [csvWriteRow]
  rw [h1, univNewlines_append_noCR (noCR_rowBody hhC), univNewlines_crlf,
    csvDictRead, csvParse, foldl_row hh, foldl_allRows hrne hrC]
  have hfil : rows.filter (fun r => !decide (r = [])) = rows :=
    List.filter_eq_self.mpr fun r hr => by simp [hrne r hr]
  simp [csvFinish, hfil]

/-- Counterexample to C2 as stated: a record whose single cell value
is one carriage-return character; the writer quotes it and stores it,
but the universal-newline decoding of the default read-mode open turns
it into a line feed, so the read sequence differs from the written
one. -/
theorem claim_C2_counterexample :
    csvRoundTrip [['A']] [[['\r']]] = some (some [['A']], [[['\n']]])
    ∧ csvRoundTrip [['A']] [[['\r']]] ≠ some (some [['A']], [[['\r']]]) :=
  ⟨by decide, by decide⟩

/-- Witness for the amended C2 at concrete inputs: a two-column table
whose values hold the delimiter, the quote character and empty cells
round-trips exactly. -/
theorem claim_C2_roundtrip_witness :
    csvRoundTrip [['A'], ['B']] [[['x', ',', 'y'], ['s', '"', 't']], [[], []]]
      = some (some [['A'], ['B']], [[['x', ',', 'y'], ['s', '"', 't']], [[], []]]) :=
  claim_C2_roundtrip [['A'], ['B']] [[['x', ',', 'y'], ['s', '"', 't']], [[], []]]
    (by decide) (by decide) (by decide) (by decide)

/-! ## Claims C8 and C9: caching and the batch loop -/

theorem lookup_cons_ne {q p c : String} {files : List (String × String)}
    (h : q ≠ p) : ((p, c) :: files).lookup q = files.lookup q := by
  simp [List.lookup, beq_eq_false_iff_ne.mpr h]

/-- C8: for every catalogued test set and language pair, the download
performs a network retrieval exactly when the raw page file is absent
at its destination (a populated destination causes no fetch and leaves
the file unchanged), and the extraction is re-run exactly when the
derived CSV cache file is absent; with both files present, the state
is untouched. -/
theorem claim_C8_cache_first (net toCsv : String → String)
    (test_set langpair dataset : String) (s : FsState)
    (hds : (data.lookup test_set).bind (fun e => e.lookup langpair) = some dataset)
    (hne : rawPagePath test_set dataset ≠ csvCachePath test_set langpair) :
    ∃ s2, download_matrix_page_one net toCsv test_set langpair s = some s2
    ∧ s2.fetched = (if pathExists s (rawPagePath test_set dataset) then s.fetched
        else s.fetched ++ [dataset])
    ∧ s2.files.lookup (rawPagePath test_set dataset)
        = (if pathExists s (rawPagePath test_set dataset)
            then s.files.lookup (rawPagePath test_set dataset)
            else some (net dataset))
    ∧ s2.extracted = (if pathExists s (csvCachePath test_set langpair) then s.extracted
        else s.extracted ++ [rawPagePath test_set dataset])
    ∧ (pathExists s (rawPagePath test_set dataset) = true →
        pathExists s (csvCachePath test_set langpair) = true → s2 = s) := by
  simp only [download_matrix_page_one, hds]
  by_cases hraw : pathExists s (rawPagePath test_set dataset) = true
  · rw [if_pos hraw]
    by_cases hcsv : pathExists s (csvCachePath test_set langpair) = true
    · rw [if_pos hcsv]
      exact ⟨s, rfl, by simp [hraw], by simp [hraw], by simp [hcsv], fun _ _ => rfl⟩
    · rw [if_neg hcsv]
      refine ⟨_, rfl, ?_, ?_, ?_, ?_⟩
      · simp [writeFile, hraw]
      · simp [writeFile, hraw, lookup_cons_ne hne]
      · simp [writeFile, hcsv]
      · intro _ h2
        exact absurd h2 hcsv
  · rw [if_neg hraw]
    have hcsv1 : pathExists { writeFile s (rawPagePath test_set dataset) (net dataset) with
        fetched := s.fetched ++ [dataset] } (csvCachePath test_set langpair)
        = pathExists s (csvCachePath test_set langpair) := by
      simp [pathExists, writeFile, lookup_cons_ne (Ne.symm hne)]
    have hself : List.lookup (rawPagePath test_set dataset)
        ((rawPagePath test_set dataset, net dataset) :: s.files) = some (net dataset) := by
      simp [List.lookup]
    by_cases hcsv : pathExists s (csvCachePath test_set langpair) = true
    · rw [hcsv1.trans hcsv, if_pos rfl]
      refine ⟨_, rfl, ?_, ?_, ?_, ?_⟩
      · simp [writeFile, hraw]
      · simp only [writeFile]
        rw [hself, if_neg hraw]
      · simp [writeFile, hcsv]
      · intro h1 _
        exact absurd h1 hraw
    · rw [hcsv1.trans (Bool.eq_false_iff.mpr hcsv)]
      rw [if_neg (by simp)]
      refine ⟨_, rfl, ?_, ?_, ?_, ?_⟩
      · simp [writeFile, hraw]
      · simp only [writeFile]
        rw [lookup_cons_ne hne, hself, if_neg hraw]
      · simp [writeFile, hcsv]
      · intro h1 _
        exact absurd h1 hraw

/-- Witness for C8 at concrete inputs: with the wmt19 en-cs raw page
and CSV cache both present, the download makes no fetch, runs no
extraction and leaves the state untouched. -/
theorem claim_C8_cache_first_witness :
    ∃ s2, download_matrix_page_one (fun _ => "page") (fun _ => "csv")
        "wmt19" "en-cs" fsBoth = some s2
    ∧ s2.fetched = (if pathExists fsBoth (rawPagePath "wmt19" url1896) then fsBoth.fetched
        else fsBoth.fetched ++ [url1896])
    ∧ s2.files.lookup (rawPagePath "wmt19" url1896)
        = (if pathExists fsBoth (rawPagePath "wmt19" url1896)
            then fsBoth.files.lookup (rawPagePath "wmt19" url1896)
            else some ((fun _ => "page") url1896))
    ∧ s2.extracted = (if pathExists fsBoth (csvCachePath "wmt19" "en-cs")
        then fsBoth.extracted
        else fsBoth.extracted ++ [rawPagePath "wmt19" url1896])
    ∧ (pathExists fsBoth (rawPagePath "wmt19" url1896) = true →
        pathExists fsBoth (csvCachePath "wmt19" "en-cs") = true → s2 = fsBoth) :=
  claim_C8_cache_first (fun _ => "page") (fun _ => "csv") "wmt19" "en-cs" url1896 fsBoth
    (by decide) (by decide)

/-- C9: the batch loop iterates all keys of the catalog entry of the
test set, the description metadata key included, and so does not
process only the language pairs; on wmt16 the loop processes the
description key first and hands the description text to the fetch as
if it were a URL. -/
theorem claim_C9_batch_description :
    batchKeys "wmt16" = ["description", "en-cs"]
    ∧ langpairKeys "wmt16" = ["en-cs"]
    ∧ batchKeys "wmt16" ≠ langpairKeys "wmt16"
    ∧ (download_matrix_page_batch (fun _ => "page") (fun _ => "csv") "wmt16"
        ⟨[], [], []⟩).map FsState.fetched
      = some ["Official evaluation data for WMT 2016.",
          "http://matrix.statmt.org/matrix/systems_list/1844"] :=
  ⟨by decide, by decide, by decide, by decide⟩
